import Mathlib

/-!
Verification of `dbms/src/DataTypes/DataTypeWithDictionary.cpp`: the
dictionary-encoded (low-cardinality) column type of the columnar store.
The file shallowly embeds the translated unit together with the contracts of
its collaborators (the Unique Dictionary Store, the per-type element and index
codecs, and the Stream Router), and proves the specified properties of
construction, structural equality, column materialization, the multi-stream
bulk (de)serialization protocol, and single-value access.
-/

set_option maxHeartbeats 1000000

namespace DB

/-- Logical data types. The collaborator subclasses of `IDataType` are not part
of the translated unit; their closed constructor set is modelled from the spec
(sections 3 and 4.1): 8/16/32/64-bit unsigned and signed integers, 32/64-bit
floats, variable-length text (`String`), fixed-width text (`FixedString(n)`),
`Date`, `DateTime`, the one-level `Nullable` wrapper, the dictionary type
itself, and `array` standing for the composite kinds the dictionary type does
not support. -/
inductive DataType : Type
  | uint8 | uint16 | uint32 | uint64
  | int8 | int16 | int32 | int64
  | float32 | float64
  | string
  | fixedString (n : Nat)
  | date
  | dateTime
  | nullable (nested : DataType)
  | withDictionary (dict indexes : DataType)
  | array (nested : DataType)
deriving DecidableEq

namespace DataType

/-- Modelled from the spec: `IDataType::isUnsignedInteger` of the type
hierarchy headers (true exactly on the 8/16/32/64-bit unsigned kinds). -/
def isUnsignedInteger : DataType → Bool
  | uint8 | uint16 | uint32 | uint64 => true
  | _ => false

/-- Modelled from the spec: `IDataType::isNullable`. -/
def isNullable : DataType → Bool
  | nullable _ => true
  | _ => false

/-- Modelled from the spec: `DataTypeNullable::getNestedType`, combined with
the guard `isNullable` exactly as the translated unit uses it: unwrap one
optional layer, leave every other type unchanged. -/
def unwrapNullable : DataType → DataType
  | nullable t => t
  | t => t

/-- Modelled from the spec: `IDataType::isString`. -/
def isString : DataType → Bool
  | string => true
  | _ => false

/-- Modelled from the spec: `IDataType::isFixedString`. -/
def isFixedString : DataType → Bool
  | fixedString _ => true
  | _ => false

/-- Modelled from the spec: `IDataType::isStringOrFixedString`. -/
def isStringOrFixedString : DataType → Bool
  | string | fixedString _ => true
  | _ => false

/-- Modelled from the spec: `IDataType::isDateOrDateTime`. -/
def isDateOrDateTime : DataType → Bool
  | date | dateTime => true
  | _ => false

/-- Modelled from the spec: `IDataType::isNumber` (unsigned and signed
integers and floats). -/
def isNumber : DataType → Bool
  | uint8 | uint16 | uint32 | uint64 => true
  | int8 | int16 | int32 | int64 => true
  | float32 | float64 => true
  | _ => false

/-- Modelled from the spec: structural equality of the collaborator types
(each `equals` compares the dynamic kind via `typeid` and then the
parameters: `FixedString` its width, wrappers their nested types). -/
def equals : DataType → DataType → Bool
  | uint8, uint8 => true
  | uint16, uint16 => true
  | uint32, uint32 => true
  | uint64, uint64 => true
  | int8, int8 => true
  | int16, int16 => true
  | int32, int32 => true
  | int64, int64 => true
  | float32, float32 => true
  | float64, float64 => true
  | string, string => true
  | fixedString n, fixedString m => n == m
  | date, date => true
  | dateTime, dateTime => true
  | nullable a, nullable b => equals a b
  | withDictionary d i, withDictionary d2 i2 => equals d d2 && equals i i2
  | array a, array b => equals a b
  | _, _ => false

end DataType

/-- Error codes raised by the translated unit (namespace `ErrorCodes`). -/
inductive Err : Type
  | illegalTypeOfArgument
  | logicalError
  | numberOfArgumentsDoesntMatch
deriving DecidableEq

/-- The core type: `DataTypeWithDictionary` pairs the dictionary element type
with the index type (fields `dictionary_type` and `indexes_type`). -/
structure DataTypeWithDictionary : Type where
  dictionary_type : DataType
  indexes_type : DataType
deriving DecidableEq

namespace DataTypeWithDictionary

/-- The constructor `DataTypeWithDictionary::DataTypeWithDictionary`
(source lines 23-39): reject a non-unsigned-integer index type, unwrap one
`Nullable` layer of the element type, reject an inner type that is not text,
fixed text, date, date-time or a number; otherwise assign the two fields. -/
def construct (dictionary_type indexes_type : DataType) :
    Except Err DataTypeWithDictionary :=
  if ¬ indexes_type.isUnsignedInteger then
    .error .illegalTypeOfArgument
  else
    let inner_type :=
      if dictionary_type.isNullable then dictionary_type.unwrapNullable
      else dictionary_type
    if ¬ inner_type.isStringOrFixedString
        ∧ ¬ inner_type.isDateOrDateTime
        ∧ ¬ inner_type.isNumber then
      .error .illegalTypeOfArgument
    else
      .ok ⟨dictionary_type, indexes_type⟩

/-- The `DataType` value a `DataTypeWithDictionary` instance denotes, used as
the right-hand side of dynamic-type comparisons. -/
def toDataType (t : DataTypeWithDictionary) : DataType :=
  .withDictionary t.dictionary_type t.indexes_type

/-- `DataTypeWithDictionary::equals` (source lines 215-223): false when the
dynamic kind of `rhs` differs, otherwise structural equality of both the
dictionary and the index types. -/
def equals (t : DataTypeWithDictionary) (rhs : DataType) : Bool :=
  match rhs with
  | .withDictionary d i => t.dictionary_type.equals d && t.indexes_type.equals i
  | _ => false

end DataTypeWithDictionary

/-- Storage representations a dictionary column can be materialized over:
`ColumnString`, `ColumnFixedString`, and `ColumnVector<T>` for each kind in
the closed numeric list. -/
inductive ColumnRep : Type
  | str
  | fixedStr (n : Nat)
  | vUInt8 | vUInt16 | vUInt32 | vUInt64
  | vInt8 | vInt16 | vInt32 | vInt64
  | vFloat32 | vFloat64
deriving DecidableEq

/-- Index storage representations: `ColumnVector` over the closed set of
8/16/32/64-bit unsigned integers. -/
inductive IndexRep : Type
  | u8 | u16 | u32 | u64
deriving DecidableEq

namespace DataTypeWithDictionary

/-- `DataTypeWithDictionary::createColumnImpl<ColumnType>` (source lines
152-166): dispatch the index type over the four unsigned widths via
`typeid_cast`; fall through to `LOGICAL_ERROR`. A successful result stands
for the fresh empty `ColumnWithDictionary` pairing a `ColumnUnique` of the
element representation with an empty index column of the index
representation. -/
def createColumnImpl (t : DataTypeWithDictionary) (elemRep : ColumnRep) :
    Except Err (ColumnRep × IndexRep) :=
  match t.indexes_type with
  | .uint8 => .ok (elemRep, .u8)
  | .uint16 => .ok (elemRep, .u16)
  | .uint32 => .ok (elemRep, .u32)
  | .uint64 => .ok (elemRep, .u64)
  | _ => .error .logicalError

/-- `CreateColumnVector::operator()` folded over `TypeListNumbers::forEach`
(source lines 168-184 and 203): the column is set exactly when a
`typeid_cast<DataTypeNumber<T>>` succeeds on the type handed in for some `T`
of the closed numeric list. -/
def numberColumnRep : DataType → Option ColumnRep
  | .uint8 => some .vUInt8
  | .uint16 => some .vUInt16
  | .uint32 => some .vUInt32
  | .uint64 => some .vUInt64
  | .int8 => some .vInt8
  | .int16 => some .vInt16
  | .int32 => some .vInt32
  | .int64 => some .vInt64
  | .float32 => some .vFloat32
  | .float64 => some .vFloat64
  | _ => none

/-- `DataTypeWithDictionary::createColumn` (source lines 186-213): unwrap one
`Nullable` layer, then dispatch: text, fixed text, `Date` (16-bit unsigned
storage), `DateTime` (32-bit unsigned storage), and numbers. Note that per
source line 203 the numeric dispatch inspects `dictionary_type` (the original,
possibly still `Nullable`-wrapped type), not the unwrapped `type`; the final
fall-throughs raise `LOGICAL_ERROR`. -/
def createColumn (t : DataTypeWithDictionary) : Except Err (ColumnRep × IndexRep) :=
  let ty :=
    if t.dictionary_type.isNullable then t.dictionary_type.unwrapNullable
    else t.dictionary_type
  if ty.isString then t.createColumnImpl .str
  else
    match ty with
    | .fixedString n => t.createColumnImpl (.fixedStr n)
    | .date => t.createColumnImpl .vUInt16
    | .dateTime => t.createColumnImpl .vUInt32
    | _ =>
      if ty.isNumber then
        match numberColumnRep t.dictionary_type with
        | some rep => t.createColumnImpl rep
        | none => .error .logicalError
      else
        .error .logicalError

end DataTypeWithDictionary

/-- The element kinds the claim and section 4.1 of the spec enumerate as valid
dictionary element inner types: numbers, text, fixed text, date, date-time.
Stated from the spec wording, to be compared with the source's composed
predicate. -/
def validElementInnerSpec : DataType → Bool
  | .uint8 | .uint16 | .uint32 | .uint64 => true
  | .int8 | .int16 | .int32 | .int64 => true
  | .float32 | .float64 => true
  | .string | .fixedString _ => true
  | .date | .dateTime => true
  | _ => false

/-! Runtime column model. The value type of the dictionary elements is a
parameter `α`; a concrete column of the store instantiates it with the
element representation's value set. -/

/-- Modelled from the spec: the Unique Dictionary Store collaborator
(`ColumnUnique`), an append-only deduplicated container whose nested column
lists the distinct values in code order (codes are dense, zero-based and
stable). -/
structure ColumnUnique (α : Type) : Type where
  nested : List α
deriving DecidableEq

/-- Modelled from the spec: the Dictionary Column collaborator
(`ColumnWithDictionary`), pairing one Unique Dictionary Store with one Index
Array of per-row codes. The Index Array is modelled as unbounded unsigned
integers, per the spec's Index Array contract. -/
structure ColumnWithDictionary (α : Type) : Type where
  unique : ColumnUnique α
  indexes : List Nat
deriving DecidableEq

/-- Position of the first occurrence of a value in the store's nested column,
the code a deduplicating lookup returns. -/
def lookupCode {α : Type} [DecidableEq α] (xs : List α) (v : α) : Option Nat :=
  match xs with
  | [] => none
  | x :: rest => if x = v then some 0 else (lookupCode rest v).map (· + 1)

/-- Modelled from the spec: `ColumnUnique::uniqueInsert` — inserting a value
already present is a no-op returning its existing code; a new value is
appended and receives the code equal to the prior size. -/
def ColumnUnique.uniqueInsert {α : Type} [DecidableEq α] (st : ColumnUnique α)
    (v : α) : ColumnUnique α × Nat :=
  match lookupCode st.nested v with
  | some c => (st, c)
  | none => (⟨st.nested ++ [v]⟩, st.nested.length)

/-- Modelled from the spec: `ColumnUnique::uniqueInsertRangeFrom` over the
whole staged batch — a deduplicating range-insert, value by value in order. -/
def ColumnUnique.uniqueInsertRangeFrom {α : Type} [DecidableEq α]
    (st : ColumnUnique α) (vs : List α) : ColumnUnique α :=
  vs.foldl (fun s v => (s.uniqueInsert v).1) st

/-- The decoded logical value of a row: the store entry the row's code points
at. -/
def ColumnWithDictionary.valueAt {α : Type} (col : ColumnWithDictionary α)
    (i : Nat) : Option α :=
  match col.indexes[i]? with
  | some c => col.unique.nested[c]?
  | none => none

/-- Modelled from the spec: growing a Dictionary Column by one row — reuse the
existing code of a duplicate value, or append a new dictionary entry and its
fresh code, then append the code to the Index Array. -/
def ColumnWithDictionary.insertValue {α : Type} [DecidableEq α]
    (col : ColumnWithDictionary α) (v : α) : ColumnWithDictionary α :=
  let p := col.unique.uniqueInsert v
  ⟨p.1, col.indexes ++ [p.2]⟩

/-- A Dictionary Column with `vs.length` rows built by repeated single-row
inserts starting from the freshly materialized empty column. -/
def buildColumn {α : Type} [DecidableEq α] (vs : List α) :
    ColumnWithDictionary α :=
  vs.foldl ColumnWithDictionary.insertValue ⟨⟨[]⟩, []⟩

/-- Modelled from the spec: the per-type bulk codec
(`IDataType::serializeBinaryBulk`) used for both the dictionary payload and
the index payload. A `limit` of `0` means "serialize to the end", the
convention the translated unit relies on when it emits the full dictionary
payload with arguments `(0, 0)`; otherwise the emitted range is
`[offset, offset + limit)` clamped at the column end. -/
def bulkSerialize {β : Type} (xs : List β) (offset limit : Nat) : List β :=
  if limit = 0 then xs.drop offset else (xs.drop offset).take limit

/-- Content appended to the two sub-path streams by one bulk-serialize call:
the DictionaryElements stream carries the `UInt64` element count
(`Sum.inl`) followed by encoded element values (`Sum.inr`); the
DictionaryIndexes stream carries encoded index values. -/
structure SerializeOut (α : Type) : Type where
  elems : List (Nat ⊕ α)
  idx : List Nat
deriving DecidableEq

/-- `DataTypeWithDictionary::serializeBinaryBulkWithMultipleStreams` (source
lines 49-74). The Stream Router is modelled by the two flags saying whether
the getter returns a sink for the DictionaryElements and DictionaryIndexes
sub-paths; when a sub-path has no sink its output is empty. With an elements
sink and `offset == 0` the store size and the full nested payload
(`serializeBinaryBulk` with arguments `0, 0`) are written; with an indexes
sink the Index Array is serialized over `(offset, limit)`. -/
def serializeBinaryBulkWithMultipleStreams {α : Type}
    (col : ColumnWithDictionary α) (haveElems haveIdx : Bool)
    (offset limit : Nat) : SerializeOut α :=
  { elems :=
      if haveElems then
        if offset = 0 then
          Sum.inl col.unique.nested.length
            :: (bulkSerialize col.unique.nested 0 0).map Sum.inr
        else []
      else []
    idx := if haveIdx then bulkSerialize col.indexes offset limit else [] }

/-- Modelled from the spec: the element codec's bulk decode of `n` elements
from the DictionaryElements stream into a freshly allocated empty staging
container; decoding stops silently at the end of the stream, and a count
token where a value is expected is a decode failure. -/
def readElems {α : Type} : List (Nat ⊕ α) → Nat → Option (List α)
  | _, 0 => some []
  | [], _ + 1 => some []
  | Sum.inr a :: rest, n + 1 => (readElems rest n).map (a :: ·)
  | Sum.inl _ :: _, _ + 1 => none

/-- `DataTypeWithDictionary::deserializeBinaryBulkWithMultipleStreams`
(source lines 76-104). Sources are `Option` streams as handed out by the
Stream Router. With an elements source and an empty column the stored element
count is read, that many elements are decoded into a fresh staging container
and range-inserted into the store; with an indexes source up to `limit`
decoded indexes are appended to the Index Array. -/
def deserializeBinaryBulkWithMultipleStreams {α : Type} [DecidableEq α]
    (col : ColumnWithDictionary α)
    (elemSource : Option (List (Nat ⊕ α))) (idxSource : Option (List Nat))
    (limit : Nat) : Option (ColumnWithDictionary α) :=
  let afterElems : Option (ColumnWithDictionary α) :=
    match elemSource with
    | none => some col
    | some s =>
      if col.indexes.isEmpty then
        match s with
        | Sum.inl n :: rest =>
          match readElems rest n with
          | none => none
          | some vs => some ⟨col.unique.uniqueInsertRangeFrom vs, col.indexes⟩
        | _ => none
      else some col
  match afterElems with
  | none => none
  | some c =>
    match idxSource with
    | none => some c
    | some s => some ⟨c.unique, c.indexes ++ s.take limit⟩

/-- `DataTypeWithDictionary::serializeImpl` (source lines 115-123): read the
code at `rowNum` from the Index Array (`getUInt`), then hand the unique store
and that code to the element type's single-value serialization, which encodes
the store entry at the code. `enc` is the element codec's single-value
format. -/
def serializeImpl {α β : Type} (col : ColumnWithDictionary α) (rowNum : Nat)
    (enc : α → β) : Option β :=
  match col.unique.nested[col.indexes.getD rowNum 0]? with
  | some v => some (enc v)
  | none => none

/-- `DataTypeWithDictionary::deserializeImpl` (source lines 125-143) with the
decoded scalar `v` already read from the stream: the element decode appends
`v` directly to the store's nested column (the staging append), then
`insertFrom(nested, unique_size)` asks the store for the code of the staged
value — modelled from the spec, the store returns the existing code of a
duplicate and otherwise adopts the staged entry under the fresh code
`unique_size` — appends that code to the Index Array, and pops the staged
entry back off when the appended code differs from the prior store size. -/
def deserializeImpl {α : Type} [DecidableEq α] (col : ColumnWithDictionary α)
    (v : α) : ColumnWithDictionary α :=
  let size := col.indexes.length
  let uniqueSize := col.unique.nested.length
  let staged := col.unique.nested ++ [v]
  let code :=
    match lookupCode col.unique.nested v with
    | some c => c
    | none => uniqueSize
  let indexes1 := col.indexes ++ [code]
  if indexes1.getD size 0 ≠ uniqueSize then
    ⟨⟨staged.dropLast⟩, indexes1⟩
  else
    ⟨⟨staged⟩, indexes1⟩

/-- State-passing form of the bulk serializer: the source function takes the
column by const reference and only reads it (`getUnique`, `getNestedColumn`,
`getIndexes`), so the call returns the column it was given alongside the
emitted stream content. -/
def serializeBinaryBulkWithMultipleStreamsSt {α : Type}
    (col : ColumnWithDictionary α) (haveElems haveIdx : Bool)
    (offset limit : Nat) : ColumnWithDictionary α × SerializeOut α :=
  (col, serializeBinaryBulkWithMultipleStreams col haveElems haveIdx offset limit)

/-- State-passing form of `serializeImpl`: the column is only read. -/
def serializeImplSt {α β : Type} (col : ColumnWithDictionary α) (rowNum : Nat)
    (enc : α → β) : ColumnWithDictionary α × Option β :=
  (col, serializeImpl col rowNum enc)

/-- State-passing form of `DataTypeWithDictionary::serializeBinary` for a
`Field` (source lines 106-109): the call delegates to the element type's
Field serialization and does not even take the column as an argument; the
column is threaded through to state the frame property. -/
def serializeBinaryFieldSt {α φ β : Type} (col : ColumnWithDictionary α)
    (f : φ) (encF : φ → β) : ColumnWithDictionary α × β :=
  (col, encF f)

/-- Invariant of a Dictionary Column that decodes to the row sequence `ws`:
row count matches, the store is deduplicated, every row decodes to the
corresponding value of `ws`, and every stored code is in range. -/
def GoodFor {α : Type} (col : ColumnWithDictionary α) (ws : List α) : Prop :=
  col.indexes.length = ws.length
  ∧ col.unique.nested.Nodup
  ∧ (∀ i : Nat, col.valueAt i = ws[i]?)
  ∧ (∀ c ∈ col.indexes, c < col.unique.nested.length)

/-! Theorems. -/

theorem DataType.equals_iff (a b : DataType) : a.equals b = true ↔ a = b := by
  induction a generalizing b <;> cases b <;> simp_all [DataType.equals]

theorem DataType.equals_comm (a b : DataType) : a.equals b = b.equals a := by
  by_cases h : a = b
  · subst h; rfl
  · have h1 : a.equals b = false := by
      cases he : a.equals b
      · rfl
      · exact absurd ((DataType.equals_iff a b).mp he) h
    have h2 : b.equals a = false := by
      cases he : b.equals a
      · rfl
      · exact absurd ((DataType.equals_iff b a).mp he).symm h
    rw [h1, h2]

theorem inner_predicate_agrees (t : DataType) :
    (t.isStringOrFixedString || t.isDateOrDateTime || t.isNumber)
      = validElementInnerSpec t := by
  cases t <;> rfl

/-- Claim C6: construction fails with an illegal-argument-type error for every
index type that is not an unsigned integer kind; otherwise, after unwrapping
one level of Nullable on the element type, it fails with an
illegal-argument-type error for every inner kind outside numbers, string,
fixed string, date and date-time; inside those sets it succeeds and only
assigns the two fields. -/
theorem construct_spec (d i : DataType) :
    (DataTypeWithDictionary.construct d i = Except.ok ⟨d, i⟩
       ↔ (i.isUnsignedInteger = true ∧ validElementInnerSpec d.unwrapNullable = true))
    ∧ (i.isUnsignedInteger = false →
        DataTypeWithDictionary.construct d i = Except.error Err.illegalTypeOfArgument)
    ∧ (validElementInnerSpec d.unwrapNullable = false →
        DataTypeWithDictionary.construct d i = Except.error Err.illegalTypeOfArgument) := by
  have hun : (if d.isNullable = true then d.unwrapNullable else d)
      = d.unwrapNullable := by
    cases d <;> rfl
  have key := inner_predicate_agrees d.unwrapNullable
  simp only [DataTypeWithDictionary.construct]
  rw [hun]
  cases hi : i.isUnsignedInteger <;>
    cases h1 : d.unwrapNullable.isStringOrFixedString <;>
      cases h2 : d.unwrapNullable.isDateOrDateTime <;>
        cases h3 : d.unwrapNullable.isNumber <;>
          simp_all

/-- Witness for the claim C6 theorem at concrete inputs: a signed index type
and an unsupported element kind are both rejected, a valid pair is accepted. -/
theorem construct_spec_witness :
    DataTypeWithDictionary.construct .string .int8
        = Except.error Err.illegalTypeOfArgument
    ∧ DataTypeWithDictionary.construct (.array .string) .uint8
        = Except.error Err.illegalTypeOfArgument
    ∧ DataTypeWithDictionary.construct (.nullable .string) .uint8
        = Except.ok ⟨.nullable .string, .uint8⟩ :=
  ⟨(construct_spec .string .int8).2.1 rfl,
   (construct_spec (.array .string) .uint8).2.2 rfl,
   (construct_spec (.nullable .string) .uint8).1.mpr ⟨rfl, rfl⟩⟩

/-- Claim C8: equals is false on every non-dictionary dynamic kind, and on a
dictionary kind it is exactly the conjunction of the element-type and
index-type structural equalities; it is reflexive and symmetric over
constructed dictionary types, structurally equal (element, index) pairs give
equal types, and identical element type with differing index width gives
unequal types. -/
theorem equals_spec :
    (∀ (t : DataTypeWithDictionary) (rhs : DataType),
        (∀ a b : DataType, rhs ≠ .withDictionary a b) → t.equals rhs = false)
    ∧ (∀ (t : DataTypeWithDictionary) (a b : DataType),
        t.equals (.withDictionary a b)
          = (t.dictionary_type.equals a && t.indexes_type.equals b))
    ∧ (∀ t : DataTypeWithDictionary, t.equals t.toDataType = true)
    ∧ (∀ t u : DataTypeWithDictionary,
        t.equals u.toDataType = u.equals t.toDataType)
    ∧ (∀ t u : DataTypeWithDictionary,
        t.dictionary_type = u.dictionary_type → t.indexes_type = u.indexes_type →
          t.equals u.toDataType = true)
    ∧ ((⟨.string, .uint8⟩ : DataTypeWithDictionary).equals
        (DataTypeWithDictionary.toDataType ⟨.string, .uint16⟩) = false) := by
  refine ⟨?_, ?_, ?_, ?_, ?_, ?_⟩
  · intro t rhs h
    cases rhs <;> first | rfl | exact absurd rfl (h _ _)
  · intro t a b
    rfl
  · intro t
    simp [DataTypeWithDictionary.equals, DataTypeWithDictionary.toDataType,
      (DataType.equals_iff _ _).mpr rfl]
  · intro t u
    simp only [DataTypeWithDictionary.equals, DataTypeWithDictionary.toDataType]
    rw [DataType.equals_comm t.dictionary_type, DataType.equals_comm t.indexes_type]
  · intro t u h1 h2
    simp [DataTypeWithDictionary.equals, DataTypeWithDictionary.toDataType, h1, h2,
      (DataType.equals_iff _ _).mpr rfl]
  · decide

/-- Witness for the claim C8 theorem at concrete inputs: a dictionary type is
unequal to a plain date type, and equal to a structurally equal dictionary
type. -/
theorem equals_spec_witness :
    (⟨.string, .uint8⟩ : DataTypeWithDictionary).equals .date = false
    ∧ (⟨.string, .uint8⟩ : DataTypeWithDictionary).equals
        (DataTypeWithDictionary.toDataType ⟨.string, .uint8⟩) = true :=
  ⟨equals_spec.1 ⟨.string, .uint8⟩ .date (fun _ _ h => DataType.noConfusion h),
   equals_spec.2.2.2.2.1 ⟨.string, .uint8⟩ ⟨.string, .uint8⟩ rfl rfl⟩

/-- Claim C9 is contradicted by the code: a Nullable numeric element type is
accepted by construction, but createColumn raises LogicalError on it, because
the numeric dispatch (source line 203) inspects the original wrapped
dictionary type where every other branch inspects the unwrapped one. The
remaining conjuncts show the non-wrapped numeric case and the Nullable text
case both succeed, isolating the slip to the numeric branch. -/
theorem createColumn_nullable_number_bug :
    DataTypeWithDictionary.construct (.nullable .uint8) .uint8
        = Except.ok ⟨.nullable .uint8, .uint8⟩
    ∧ DataTypeWithDictionary.createColumn ⟨.nullable .uint8, .uint8⟩
        = Except.error Err.logicalError
    ∧ DataTypeWithDictionary.createColumn ⟨.uint8, .uint8⟩
        = Except.ok (ColumnRep.vUInt8, IndexRep.u8)
    ∧ DataTypeWithDictionary.createColumn ⟨.nullable .string, .uint8⟩
        = Except.ok (ColumnRep.str, IndexRep.u8) :=
  ⟨rfl, rfl, rfl, rfl⟩

theorem lookupCode_eq_none {α : Type} [DecidableEq α] (xs : List α) (v : α) :
    lookupCode xs v = none ↔ v ∉ xs := by
  induction xs with
  | nil => simp [lookupCode]
  | cons x rest ih =>
    by_cases h : x = v
    · subst h; simp [lookupCode]
    · simp [lookupCode, h, ih, Ne.symm h]

theorem lookupCode_spec {α : Type} [DecidableEq α] (xs : List α) (v : α)
    (c : Nat) (h : lookupCode xs v = some c) :
    c < xs.length ∧ xs[c]? = some v := by
  induction xs generalizing c with
  | nil => simp [lookupCode] at h
  | cons x rest ih =>
    by_cases hx : x = v
    · subst hx
      simp [lookupCode] at h
      subst h
      simp
    · simp [lookupCode, hx] at h
      obtain ⟨a, ha, rfl⟩ := h
      obtain ⟨h1, h2⟩ := ih a ha
      exact ⟨Nat.succ_lt_succ h1, by simpa using h2⟩

theorem getD_append_length (xs : List Nat) (c : Nat) :
    (xs ++ [c]).getD xs.length 0 = c := by
  simp [List.getD_eq_getElem?_getD, List.getElem?_concat_length]

theorem bulkSerialize_zero_zero {β : Type} (xs : List β) :
    bulkSerialize xs 0 0 = xs := by
  simp [bulkSerialize]

theorem bulkSerialize_all {β : Type} (xs : List β) :
    bulkSerialize xs 0 xs.length = xs := by
  cases xs with
  | nil => simp [bulkSerialize]
  | cons x rest => simp [bulkSerialize]

theorem readElems_map_inr {α : Type} (xs : List α) :
    readElems (xs.map Sum.inr) xs.length = some xs := by
  induction xs with
  | nil => rfl
  | cons x rest ih => simp [readElems, ih]

theorem uniqueInsertRangeFrom_of_nodup {α : Type} [DecidableEq α]
    (st : ColumnUnique α) (vs : List α) (h : (st.nested ++ vs).Nodup) :
    st.uniqueInsertRangeFrom vs = ⟨st.nested ++ vs⟩ := by
  induction vs generalizing st with
  | nil =>
    cases st
    simp [ColumnUnique.uniqueInsertRangeFrom]
  | cons v rest ih =>
    have hv : v ∉ st.nested := by
      intro hm
      exact (List.nodup_append.mp h).2.2 hm (by simp)
    have hstep : (st.uniqueInsert v).1 = ⟨st.nested ++ [v]⟩ := by
      simp [ColumnUnique.uniqueInsert, (lookupCode_eq_none st.nested v).mpr hv]
    have h2 : ((⟨st.nested ++ [v]⟩ : ColumnUnique α).nested ++ rest).Nodup := by
      simpa [List.append_assoc] using h
    have htail := ih ⟨st.nested ++ [v]⟩ h2
    simp only [ColumnUnique.uniqueInsertRangeFrom, List.foldl_cons] at htail ⊢
    rw [hstep, htail]
    simp

theorem insertValue_goodFor {α : Type} [DecidableEq α]
    (col : ColumnWithDictionary α) (ws : List α) (v : α) (h : GoodFor col ws) :
    GoodFor (col.insertValue v) (ws ++ [v]) := by
  obtain ⟨hlen, hnodup, hval, hbound⟩ := h
  cases hl : lookupCode col.unique.nested v with
  | some c =>
    obtain ⟨hc, hcv⟩ := lookupCode_spec _ _ _ hl
    have hins : col.insertValue v = ⟨col.unique, col.indexes ++ [c]⟩ := by
      simp [ColumnWithDictionary.insertValue, ColumnUnique.uniqueInsert, hl]
    rw [hins]
    refine ⟨by simp [hlen], hnodup, ?_, ?_⟩
    · intro i
      by_cases hi : i < col.indexes.length
      · have h1 : (⟨col.unique, col.indexes ++ [c]⟩ :
            ColumnWithDictionary α).valueAt i = col.valueAt i := by
          simp [ColumnWithDictionary.valueAt, List.getElem?_append_left hi]
        rw [h1, hval i, List.getElem?_append_left (hlen ▸ hi)]
      · by_cases hi2 : i = col.indexes.length
        · subst hi2
          have h1 : (col.indexes ++ [c])[col.indexes.length]? = some c :=
            List.getElem?_concat_length _ _
          have h3 : (ws ++ [v])[col.indexes.length]? = some v := by
            rw [hlen]; exact List.getElem?_concat_length _ _
          simp [ColumnWithDictionary.valueAt, h1, hcv, h3]
        · have h1 : (col.indexes ++ [c])[i]? = none :=
            List.getElem?_eq_none (by simp; omega)
          have h2 : (ws ++ [v])[i]? = none :=
            List.getElem?_eq_none (by simp; omega)
          simp [ColumnWithDictionary.valueAt, h1, h2]
    · intro code hm
      simp only [List.mem_append, List.mem_singleton] at hm
      rcases hm with hm | hm
      · exact hbound _ hm
      · subst hm; exact hc
  | none =>
    have hvnot : v ∉ col.unique.nested := (lookupCode_eq_none _ _).mp hl
    have hins : col.insertValue v
        = ⟨⟨col.unique.nested ++ [v]⟩, col.indexes ++ [col.unique.nested.length]⟩ := by
      simp [ColumnWithDictionary.insertValue, ColumnUnique.uniqueInsert, hl]
    rw [hins]
    refine ⟨by simp [hlen], ?_, ?_, ?_⟩
    · refine List.nodup_append.mpr ⟨hnodup, List.nodup_singleton v, ?_⟩
      intro a ha hb
      simp only [List.mem_singleton] at hb
      subst hb
      exact hvnot ha
    · intro i
      by_cases hi : i < col.indexes.length
      · have h1 : (col.indexes ++ [col.unique.nested.length])[i]?
            = col.indexes[i]? := List.getElem?_append_left hi
        cases hidx : col.indexes[i]? with
        | none =>
          have hw := hval i
          simp only [ColumnWithDictionary.valueAt, hidx] at hw
          simp only [ColumnWithDictionary.valueAt, h1, hidx]
          rw [List.getElem?_append_left (hlen ▸ hi), ← hw]
        | some ci =>
          have hci : ci < col.unique.nested.length :=
            hbound ci (List.getElem?_mem hidx)
          have h2 : (col.unique.nested ++ [v])[ci]? = col.unique.nested[ci]? :=
            List.getElem?_append_left hci
          have hw := hval i
          simp only [ColumnWithDictionary.valueAt, hidx] at hw
          simp only [ColumnWithDictionary.valueAt, h1, hidx, h2]
          rw [List.getElem?_append_left (hlen ▸ hi), ← hw]
      · by_cases hi2 : i = col.indexes.length
        · subst hi2
          have h1 : (col.indexes ++ [col.unique.nested.length])[col.indexes.length]?
              = some col.unique.nested.length := List.getElem?_concat_length _ _
          have h2 : (col.unique.nested ++ [v])[col.unique.nested.length]?
              = some v := List.getElem?_concat_length _ _
          have h3 : (ws ++ [v])[col.indexes.length]? = some v := by
            rw [hlen]; exact List.getElem?_concat_length _ _
          simp [ColumnWithDictionary.valueAt, h1, h2, h3]
        · have h1 : (col.indexes ++ [col.unique.nested.length])[i]? = none :=
            List.getElem?_eq_none (by simp; omega)
          have h2 : (ws ++ [v])[i]? = none :=
            List.getElem?_eq_none (by simp; omega)
          simp [ColumnWithDictionary.valueAt, h1, h2]
    · intro code hm
      simp only [List.mem_append, List.mem_singleton] at hm
      simp only [List.length_append, List.length_singleton]
      rcases hm with hm | hm
      · have := hbound _ hm; omega
      · subst hm; omega

theorem buildColumn_goodFor_aux {α : Type} [DecidableEq α] (vs : List α)
    (col : ColumnWithDictionary α) (ws : List α) (h : GoodFor col ws) :
    GoodFor (vs.foldl ColumnWithDictionary.insertValue col) (ws ++ vs) := by
  induction vs generalizing col ws with
  | nil => simpa using h
  | cons v rest ih =>
    have hstep := ih (col.insertValue v) (ws ++ [v]) (insertValue_goodFor col ws v h)
    simpa [List.append_assoc] using hstep

theorem buildColumn_goodFor {α : Type} [DecidableEq α] (vs : List α) :
    GoodFor (buildColumn vs : ColumnWithDictionary α) vs := by
  have h0 : GoodFor (⟨⟨[]⟩, []⟩ : ColumnWithDictionary α) [] := by
    refine ⟨rfl, List.nodup_nil, ?_, by simp⟩
    intro i
    simp [ColumnWithDictionary.valueAt]
  simpa [buildColumn] using buildColumn_goodFor_aux vs ⟨⟨[]⟩, []⟩ [] h0

theorem deserialize_fresh {α : Type} [DecidableEq α]
    (col : ColumnWithDictionary α) (h : col.unique.nested.Nodup) :
    deserializeBinaryBulkWithMultipleStreams (⟨⟨[]⟩, []⟩ : ColumnWithDictionary α)
      (some (Sum.inl col.unique.nested.length :: col.unique.nested.map Sum.inr))
      (some col.indexes) col.indexes.length
    = some col := by
  obtain ⟨⟨nested⟩, indexes⟩ := col
  simp only at h
  simp [deserializeBinaryBulkWithMultipleStreams, readElems_map_inr,
    uniqueInsertRangeFrom_of_nodup (⟨[]⟩ : ColumnUnique α) nested (by simpa using h)]

/-- Claim C1: for every Dictionary Column built by repeated single-row inserts
from the row sequence `vs`, bulk serialization over the full row range
followed by bulk deserialization into a freshly materialized empty column
reproduces the column, so the decoded value at every row index equals the
original value there (`vs[i]?`), including the empty column. -/
theorem serialize_deserialize_roundTrip {α : Type} [DecidableEq α] (vs : List α) :
    deserializeBinaryBulkWithMultipleStreams (⟨⟨[]⟩, []⟩ : ColumnWithDictionary α)
      (some (serializeBinaryBulkWithMultipleStreams (buildColumn vs) true true 0 vs.length).elems)
      (some (serializeBinaryBulkWithMultipleStreams (buildColumn vs) true true 0 vs.length).idx)
      vs.length
      = some (buildColumn vs)
    ∧ ∀ i : Nat, (buildColumn vs : ColumnWithDictionary α).valueAt i = vs[i]? := by
  obtain ⟨hlen, hnodup, hval, hbound⟩ := buildColumn_goodFor (α := α) vs
  constructor
  · have helems :
        (serializeBinaryBulkWithMultipleStreams (buildColumn vs) true true 0 vs.length).elems
          = Sum.inl (buildColumn vs : ColumnWithDictionary α).unique.nested.length
              :: (buildColumn vs : ColumnWithDictionary α).unique.nested.map Sum.inr := by
      simp [serializeBinaryBulkWithMultipleStreams, bulkSerialize_zero_zero]
    have hidx :
        (serializeBinaryBulkWithMultipleStreams (buildColumn vs) true true 0 vs.length).idx
          = (buildColumn vs : ColumnWithDictionary α).indexes := by
      simp only [serializeBinaryBulkWithMultipleStreams, if_pos]
      rw [← hlen, bulkSerialize_all]
    rw [helems, hidx, ← hlen]
    exact deserialize_fresh (buildColumn vs) hnodup
  · exact hval

/-- Claim C2: the DictionaryElements output of one bulk-serialize call is the
store size followed by the full dictionary payload (offset 0, limit equal to
the store size) exactly when the router yields an elements sink and
`offset = 0`, and is empty otherwise — in particular it is empty for every
chunk with `offset` not `0`, so the dictionary is written at most once per
pass. -/
theorem serializeElems_spec {α : Type} (col : ColumnWithDictionary α)
    (haveElems haveIdx : Bool) (offset limit : Nat) :
    (serializeBinaryBulkWithMultipleStreams col haveElems haveIdx offset limit).elems
      = if haveElems = true ∧ offset = 0 then
          Sum.inl col.unique.nested.length
            :: (bulkSerialize col.unique.nested 0 col.unique.nested.length).map Sum.inr
        else [] := by
  cases haveElems with
  | false => simp [serializeBinaryBulkWithMultipleStreams]
  | true =>
    by_cases ho : offset = 0 <;>
      simp [serializeBinaryBulkWithMultipleStreams, ho,
        bulkSerialize_zero_zero, bulkSerialize_all]

/-- Claim C3: the dictionary payload is read exactly when the router yields an
elements source and the column is empty — then the stored count `n` is read,
`n` elements are decoded into a fresh staging batch and range-inserted into
the store, after which an indexes source appends up to `limit` decoded
indexes to the Index Array; with a nonempty column or no elements source the
store is left alone and only the indexes are appended. -/
theorem deserialize_spec {α : Type} [DecidableEq α]
    (col : ColumnWithDictionary α) (n : Nat) (rest : List (Nat ⊕ α))
    (idxSource : Option (List Nat)) (limit : Nat) :
    (deserializeBinaryBulkWithMultipleStreams col (some (Sum.inl n :: rest))
        idxSource limit
      = if col.indexes.isEmpty = true then
          match readElems rest n with
          | none => none
          | some vs =>
              some ⟨col.unique.uniqueInsertRangeFrom vs,
                    col.indexes ++ (idxSource.getD []).take limit⟩
        else some ⟨col.unique, col.indexes ++ (idxSource.getD []).take limit⟩)
    ∧ (deserializeBinaryBulkWithMultipleStreams col none idxSource limit
        = some ⟨col.unique, col.indexes ++ (idxSource.getD []).take limit⟩) := by
  cases hempty : col.indexes.isEmpty <;>
    cases hre : readElems rest n <;>
      cases idxSource <;>
        simp [deserializeBinaryBulkWithMultipleStreams, hempty, hre]

/-- Claim C4 as stated is refuted at `rowLimit = 0`: the index codec's limit-0
convention makes the call serialize the whole remaining Index Array rather
than the empty range `[rowOffset, rowOffset + 0)` the claim demands. -/
theorem serializeIdx_limit_zero_counterexample :
    (serializeBinaryBulkWithMultipleStreams
        (⟨⟨[7]⟩, [0]⟩ : ColumnWithDictionary Nat) true true 0 0).idx
      ≠ List.take 0 (List.drop 0 [0]) := by
  decide

/-- Claim C4 amended: with an indexes sink and `limit` positive, exactly the
Index Array range `[offset, offset + limit)` (clamped at the array end) is
serialized; `limit = 0` means "to the end of the array", per the index
codec's convention; a sub-path for which the router yields no sink produces
nothing while the other sub-path is still processed normally. -/
theorem serializeIdx_spec {α : Type} (col : ColumnWithDictionary α)
    (haveElems : Bool) (offset limit : Nat) :
    ((serializeBinaryBulkWithMultipleStreams col haveElems true offset limit).idx
        = if limit = 0 then col.indexes.drop offset
          else (col.indexes.drop offset).take limit)
    ∧ (serializeBinaryBulkWithMultipleStreams col haveElems false offset limit).idx = []
    ∧ (serializeBinaryBulkWithMultipleStreams col haveElems false offset limit).elems
        = (serializeBinaryBulkWithMultipleStreams col haveElems true offset limit).elems
    ∧ (serializeBinaryBulkWithMultipleStreams col false true offset limit).idx
        = (serializeBinaryBulkWithMultipleStreams col true true offset limit).idx := by
  refine ⟨?_, ?_, rfl, rfl⟩
  · simp [serializeBinaryBulkWithMultipleStreams, bulkSerialize]
  · simp [serializeBinaryBulkWithMultipleStreams]

/-- Claim C5: a single-value decode-insert grows the Index Array by exactly
one entry, and the store's nested column nets one new entry for a novel
value and none for a duplicate — the tentatively staged entry is trimmed, so
no unreferenced duplicate artifact remains. -/
theorem deserializeImpl_spec {α : Type} [DecidableEq α]
    (col : ColumnWithDictionary α) (v : α) :
    (deserializeImpl col v).indexes.length = col.indexes.length + 1
    ∧ (deserializeImpl col v).unique.nested
        = (if v ∈ col.unique.nested then col.unique.nested
           else col.unique.nested ++ [v]) := by
  cases hl : lookupCode col.unique.nested v with
  | some c =>
    obtain ⟨hc, _⟩ := lookupCode_spec _ _ _ hl
    have hmem : v ∈ col.unique.nested := by
      by_contra hno
      simp [(lookupCode_eq_none _ _).mpr hno] at hl
    have hne : c ≠ col.unique.nested.length := Nat.ne_of_lt hc
    simp [deserializeImpl, hl, getD_append_length, hne, hmem,
      List.dropLast_concat]
  | none =>
    have hno : v ∉ col.unique.nested := (lookupCode_eq_none _ _).mp hl
    simp [deserializeImpl, hl, getD_append_length, hno]

/-- Claim C7: single-value serialization reads the code at the row from the
Index Array and emits the element codec's encoding of the store entry at that
code — exactly the element encoding of the row's decoded value, for every
element codec `enc`, so the output is indistinguishable from a plain
non-dictionary encoding of that value. -/
theorem serializeImpl_spec {α β : Type} (col : ColumnWithDictionary α)
    (i : Nat) (enc : α → β) (h : i < col.indexes.length) :
    serializeImpl col i enc = (col.valueAt i).map enc := by
  have h1 : col.indexes[i]? = some col.indexes[i] := List.getElem?_eq_getElem h
  have h2 : col.indexes.getD i 0 = col.indexes[i] := by
    simp [List.getD_eq_getElem?_getD, h1]
  simp only [serializeImpl, ColumnWithDictionary.valueAt, h1, h2]
  cases col.unique.nested[col.indexes[i]]? <;> simp

/-- Witness for the claim C7 theorem at a concrete column and row. -/
theorem serializeImpl_spec_witness :
    2 < (⟨⟨[10, 20]⟩, [1, 0, 1]⟩ : ColumnWithDictionary Nat).indexes.length
    ∧ serializeImpl (⟨⟨[10, 20]⟩, [1, 0, 1]⟩ : ColumnWithDictionary Nat) 2
        (fun x => x + 1)
      = (((⟨⟨[10, 20]⟩, [1, 0, 1]⟩ : ColumnWithDictionary Nat).valueAt 2).map
          (fun x => x + 1)) :=
  ⟨by decide,
   serializeImpl_spec (⟨⟨[10, 20]⟩, [1, 0, 1]⟩ : ColumnWithDictionary Nat) 2
     (fun x => x + 1) (by decide)⟩

/-- Claim C10: none of the serialization operations mutates the column it
reads — the state-passing forms of the bulk serializer, the single-value
serializer and the Field serializer return the column unchanged, for every
column, row range and Stream Router, while emitting the same output as the
pure functions. -/
theorem serialize_no_mutation {α β φ : Type} (col : ColumnWithDictionary α)
    (haveElems haveIdx : Bool) (offset limit rowNum : Nat)
    (enc : α → β) (f : φ) (encF : φ → β) :
    (serializeBinaryBulkWithMultipleStreamsSt col haveElems haveIdx offset limit).1 = col
    ∧ (serializeBinaryBulkWithMultipleStreamsSt col haveElems haveIdx offset limit).2
        = serializeBinaryBulkWithMultipleStreams col haveElems haveIdx offset limit
    ∧ (serializeImplSt col rowNum enc).1 = col
    ∧ (serializeImplSt col rowNum enc).2 = serializeImpl col rowNum enc
    ∧ (serializeBinaryFieldSt col f encF).1 = col :=
  ⟨rfl, rfl, rfl, rfl, rfl⟩

end DB
